import Mathlib

/-
Verification of the motion/timing/detection core of the attention-stimulus
script in src/untitled.py.

The script is embedded shallowly:
- Python floats are modelled as exact rationals where only field arithmetic
  and comparisons occur (phases, clock times, the debounce interval), and as
  real numbers where trigonometry occurs (angles, positions).
- The setup-time list comprehension that indexes base_phases[j] is modelled
  with Option: a result of none corresponds to a Python IndexError.
- The per-frame cue decision (lines 185-189 of the source) is a pure step
  function of (audio availability, overlap, current time, last-cue time).
-/

namespace Untitled

open scoped Classical

/-! Parameters of the script (src/untitled.py lines 28-52).  The float
literals 0.35 and 0.15 are the exact rationals 7/20 and 3/20 in the model. -/

/-- Source line 33: number of targets on the ring. -/
def num_targets : ℕ := 20

/-- Source line 34, parametrized over the configured target count:
num_pairs = num_targets // 2. -/
def num_pairs (n : ℕ) : ℕ := n / 2

/-- Source line 35: num_white_dots = num_pairs - 1 (one pair reserved for the
green dot). -/
def num_white_dots (n : ℕ) : ℕ := num_pairs n - 1

/-- Source line 38: the phase-spread control of the script (set to 1.0). -/
def phase_spread : ℚ := 1

/-- Source line 40: ring radius. -/
def ring_radius : ℚ := 250

/-- Source line 45: semi-minor-axis scale factor 0.35. -/
def ellipse_b_scale : ℚ := 0.35

/-- Source line 46: uniform shuttle speed 0.15 (cycles per second). -/
def speed_uniform : ℚ := 0.15

/-- Source line 47: overlap distance threshold. -/
def overlap_thresh : ℚ := 36

/-- Source line 87: index of the pair reserved for the green (pointer) dot. -/
def green_pair_index : ℕ := 0

/-- Source line 89: available_pairs = [i for i in range(num_pairs) if i != green_pair_index]. -/
def available_pairs (n : ℕ) : List ℕ :=
  (List.range (num_pairs n)).filter (fun i => i ≠ green_pair_index)

/-- Source line 90: white_pair_indices = available_pairs[:num_white_dots]. -/
def white_pair_indices (n : ℕ) : List ℕ :=
  (available_pairs n).take (num_white_dots n)

/-- Source line 92: semi-major axis a = ring_radius. -/
def a : ℚ := ring_radius

/-- Source line 93: semi-minor axis b = a * ellipse_b_scale. -/
def b : ℚ := a * ellipse_b_scale

/-- Source line 71: angles = np.linspace(0, 2*pi, num_targets, endpoint=False);
the k-th angle is 2*pi*k/n. -/
noncomputable def targetAngle (n k : ℕ) : ℝ := 2 * Real.pi * k / n

/-- Source lines 72-74: the k-th target position, ring_radius * (cos, sin) of
its angle. -/
noncomputable def targetPos (n k : ℕ) : ℝ × ℝ :=
  ((ring_radius : ℝ) * Real.cos (targetAngle n k),
   (ring_radius : ℝ) * Real.sin (targetAngle n k))

/-- Source line 113: the left-start base phase of a shuttle pair with
orientation theta: 0.0 if cos(theta) < 0 else 0.5. -/
noncomputable def basePhase (theta : ℝ) : ℚ :=
  if Real.cos theta < 0 then 0 else 1/2

/-- Source lines 99-113: base_phases, one entry per white pair index i, using
theta = angles[i]. -/
noncomputable def base_phases (n : ℕ) : List ℚ :=
  (white_pair_indices n).map (fun i => basePhase (targetAngle n i))

/-- Source line 117: nwd = max(1, len(white_shuttles)); the shuttle list has
one entry per white pair index. -/
def nwd (n : ℕ) : ℕ := max 1 (white_pair_indices n).length

/-- Source line 118: gap = phase_spread * (1.0 / nwd). -/
def gap (n : ℕ) (spread : ℚ) : ℚ := spread * (1 / (nwd n : ℚ))

/-- The list comprehension of source line 119, elementwise: element j is
(base_phases[j] + j * gap) % 1.0, and indexing out of range is a fault
(Python IndexError), modelled as none.  offsetsAux bs g j n produces the
elements for indices j, j+1, ..., j+n-1 in order. -/
def offsetsAux (bs : List ℚ) (g : ℚ) : ℕ → ℕ → Option (List ℚ)
  | _, 0 => some []
  | j, m + 1 =>
    match bs.get? j with
    | none => none
    | some bj => (offsetsAux bs g (j + 1) m).map
        (fun rest => Int.fract (bj + (j : ℚ) * g) :: rest)

/-- Source line 119: phase_offsets = [(base_phases[j] + j*gap) % 1.0 for j in
range(nwd)]; none models the comprehension raising IndexError. -/
noncomputable def phase_offsets (n : ℕ) (spread : ℚ) : Option (List ℚ) :=
  offsetsAux (base_phases n) (gap n spread) 0 (nwd n)

/-- Source lines 149-156: ellipse_position(phase, theta, a, b). -/
noncomputable def ellipse_position (phase theta a b : ℝ) : ℝ × ℝ :=
  let t := 2 * Real.pi * phase
  let ex := a * Real.cos t
  let ey := b * Real.sin t
  let c := Real.cos theta
  let s := Real.sin theta
  (ex * c - ey * s, ex * s + ey * c)

/-- Source lines 176-177: a shuttle dot position at elapsed time t, speed s,
phase offset o and orientation theta: ellipse_position((t*s + o) % 1.0,
theta, a, b), with the ellipse axes passed explicitly. -/
noncomputable def shuttlePos (t s o theta a b : ℝ) : ℝ × ℝ :=
  ellipse_position (Int.fract (t * s + o)) theta a b

/-- Source lines 158-159: Euclidean distance (math.hypot of the coordinate
differences). -/
noncomputable def distance (p1 p2 : ℝ × ℝ) : ℝ :=
  Real.sqrt ((p1.1 - p2.1) ^ 2 + (p1.2 - p2.2) ^ 2)

/-- Source line 185: overlap = any(distance(dot.pos, green_dot.pos) < thresh
for each shuttle dot), with the threshold passed explicitly (the script
passes overlap_thresh). -/
def overlap (shuttles : List (ℝ × ℝ)) (gpos : ℝ × ℝ) (thresh : ℝ) : Prop :=
  ∃ p ∈ shuttles, distance p gpos < thresh

/-- Source line 147: initial value of last_beep_time. -/
def last_beep_time_init : ℚ := -1

/-- Source line 187: the per-frame cue decision
beep is not None and overlap and (now - last_beep_time >= 0.22). -/
def cueFire (beepOk overlapNow : Bool) (now last : ℚ) : Bool :=
  beepOk && overlapNow && decide ((0.22 : ℚ) ≤ now - last)

/-- Source lines 187-189: one frame of the cue trigger; on firing, the beep
plays and last_beep_time is set to now, otherwise last_beep_time is kept. -/
def cueStep (beepOk overlapNow : Bool) (now last : ℚ) : Bool × ℚ :=
  if cueFire beepOk overlapNow now last then (true, now) else (false, last)

/-- The times at which cues fire while folding the cue trigger of source
lines 185-189 over a list of frames, each frame carrying its clock reading
and its overlap boolean. -/
def fireTimes (beepOk : Bool) : List (ℚ × Bool) → ℚ → List ℚ
  | [], _ => []
  | f :: rest, last =>
    if cueFire beepOk f.2 f.1 last then f.1 :: fireTimes beepOk rest f.1
    else fireTimes beepOk rest last

/-- The last-beep time after k frames of the scenario in which overlap is
continuously true, audio is available, and frame k occurs at clock time
k * 0.22. -/
def lastAfter : ℕ → ℚ
  | 0 => last_beep_time_init
  | k + 1 => (cueStep true true ((k : ℚ) * 0.22) (lastAfter k)).2

/-- Whether a cue fires on frame k of the same uniform scenario. -/
def firesAt (k : ℕ) : Bool :=
  cueFire true true ((k : ℚ) * 0.22) (lastAfter k)

/-- Modelled from the spec: the claims describe a pair's left endpoint as
whichever of its two endpoints has negative x-coordinate, or the mid-cycle
(phase-0.5) endpoint when neither does.  For pair i the phase-0 endpoint is
target i and the phase-0.5 endpoint is target i + num_pairs. -/
noncomputable def specLeftEndpoint (n i : ℕ) : ℝ × ℝ :=
  if (targetPos n i).1 < 0 then targetPos n i else targetPos n (i + num_pairs n)

/-- Modelled from the spec: a list of phases, once sorted, is spaced by g
modulo 1 across one full cycle when consecutive sorted elements differ by
exactly g and the wrap-around difference (first + 1 - last) is also g. -/
def evenlySpacedMod1 (l : List ℚ) (g : ℚ) : Prop :=
  List.Chain' (fun x y => y - x = g) (List.insertionSort (· ≤ ·) l) ∧
  (List.insertionSort (· ≤ ·) l).headD 0 + 1
    - (List.insertionSort (· ≤ ·) l).getLastD 0 = g

/-! Helper lemmas: signs of the cosine of ring angles, evaluated base phases,
and ellipse positions at the special phases 0, 1/4 and 1/2. -/

lemma targetAngle_nonneg (n k : ℕ) : 0 ≤ targetAngle n k := by
  unfold targetAngle
  positivity

lemma cos_targetAngle_pos {n k : ℕ} (h : 4 * k < n) :
    0 < Real.cos (targetAngle n k) := by
  have hn0 : 0 < n := by omega
  have hnR : (0 : ℝ) < n := by exact_mod_cast hn0
  have hkR : 4 * (k : ℝ) < n := by exact_mod_cast h
  apply Real.cos_pos_of_mem_Ioo
  constructor
  · have h0 : (0 : ℝ) ≤ targetAngle n k := targetAngle_nonneg n k
    have hpi := Real.pi_pos
    linarith
  · unfold targetAngle
    rw [div_lt_iff₀ hnR]
    nlinarith [Real.pi_pos, mul_pos Real.pi_pos (by linarith : (0 : ℝ) < n - 4 * k)]

lemma cos_targetAngle_quarter {n k : ℕ} (h0 : 0 < k) (h : 4 * k = n) :
    Real.cos (targetAngle n k) = 0 := by
  have hk : (k : ℝ) ≠ 0 := Nat.cast_ne_zero.mpr (by omega)
  have hAngle : targetAngle n k = Real.pi / 2 := by
    unfold targetAngle
    rw [← h]
    push_cast
    field_simp
    ring
  rw [hAngle, Real.cos_pi_div_two]

lemma cos_targetAngle_neg {n k : ℕ} (h1 : n < 4 * k) (h2 : 4 * k < 3 * n) :
    Real.cos (targetAngle n k) < 0 := by
  have hn0 : 0 < n := by omega
  have hnR : (0 : ℝ) < n := by exact_mod_cast hn0
  have h1R : (n : ℝ) < 4 * k := by exact_mod_cast h1
  have h2R : 4 * (k : ℝ) < 3 * n := by exact_mod_cast h2
  apply Real.cos_neg_of_pi_div_two_lt_of_lt
  · unfold targetAngle
    rw [lt_div_iff₀ hnR]
    nlinarith [Real.pi_pos, mul_pos Real.pi_pos (by linarith : (0 : ℝ) < 4 * k - n)]
  · unfold targetAngle
    rw [div_lt_iff₀ hnR]
    nlinarith [Real.pi_pos, mul_pos Real.pi_pos (by linarith : (0 : ℝ) < 3 * n - 4 * k)]

lemma basePhase_of_neg {theta : ℝ} (h : Real.cos theta < 0) :
    basePhase theta = 0 := by
  unfold basePhase
  exact if_pos h

lemma basePhase_of_nonneg {theta : ℝ} (h : 0 ≤ Real.cos theta) :
    basePhase theta = 1 / 2 := by
  unfold basePhase
  exact if_neg (not_lt.mpr h)

lemma ellipse_position_zero (theta a b : ℝ) :
    ellipse_position 0 theta a b = (a * Real.cos theta, a * Real.sin theta) := by
  unfold ellipse_position
  simp

lemma ellipse_position_half (theta a b : ℝ) :
    ellipse_position (1 / 2) theta a b
      = (-(a * Real.cos theta), -(a * Real.sin theta)) := by
  show (let t := 2 * Real.pi * (1 / 2 : ℝ); let ex := a * Real.cos t;
    let ey := b * Real.sin t; let c := Real.cos theta; let s := Real.sin theta;
    (ex * c - ey * s, ex * s + ey * c))
      = (-(a * Real.cos theta), -(a * Real.sin theta))
  have h : 2 * Real.pi * (1 / 2 : ℝ) = Real.pi := by ring
  simp only [h, Real.cos_pi, Real.sin_pi]
  simp

lemma ellipse_position_quarter (theta a b : ℝ) :
    ellipse_position (1 / 4) theta a b
      = (-(b * Real.sin theta), b * Real.cos theta) := by
  show (let t := 2 * Real.pi * (1 / 4 : ℝ); let ex := a * Real.cos t;
    let ey := b * Real.sin t; let c := Real.cos theta; let s := Real.sin theta;
    (ex * c - ey * s, ex * s + ey * c))
      = (-(b * Real.sin theta), b * Real.cos theta)
  have h : 2 * Real.pi * (1 / 4 : ℝ) = Real.pi / 2 := by ring
  simp only [h, Real.cos_pi_div_two, Real.sin_pi_div_two]
  simp

lemma targetAngle_add_num_pairs {n : ℕ} (k : ℕ) (hn : 0 < n) (h2 : n % 2 = 0) :
    targetAngle n (k + num_pairs n) = targetAngle n k + Real.pi := by
  have hhalf : 2 * num_pairs n = n := by
    unfold num_pairs
    omega
  have hm0 : 0 < num_pairs n := by
    unfold num_pairs
    omega
  have hmR : ((num_pairs n : ℝ)) ≠ 0 := Nat.cast_ne_zero.mpr (by omega)
  unfold targetAngle
  have hnR : (n : ℝ) = 2 * (num_pairs n : ℝ) := by exact_mod_cast hhalf.symm
  rw [hnR]
  push_cast
  field_simp
  ring

/-! Claim theorems. -/

/-- Claim C9: with ring radius 250 and ellipse scale 0.35 the semi-minor axis
b is 87.5, and the orbit motion model evaluated at phase 0.25 with
orientation 0 returns the position (0, 87.5) exactly. -/
theorem semi_minor_axis_and_quarter_phase_position :
    b = 175 / 2 ∧
    ellipse_position (1 / 4) 0 ((a : ℚ) : ℝ) ((b : ℚ) : ℝ) = (0, 175 / 2) := by
  constructor
  · norm_num [b, a, ring_radius, ellipse_b_scale]
  · rw [ellipse_position_quarter]
    norm_num [b, a, ring_radius, ellipse_b_scale]

/-- Claim C10: because the semi-major axis a equals the ring radius, every
pair's orbit passes exactly through the pair's two targets: with orientation
angle of target i, the ellipse position at phase 0 is target i and the
position at phase 0.5 is the diametrically opposite target i + num_pairs. -/
theorem orbit_passes_through_pair_targets :
    ∀ i : ℕ,
      ellipse_position 0 (targetAngle 20 i) ((a : ℚ) : ℝ) ((b : ℚ) : ℝ)
          = targetPos 20 i ∧
      ellipse_position (1 / 2) (targetAngle 20 i) ((a : ℚ) : ℝ) ((b : ℚ) : ℝ)
          = targetPos 20 (i + num_pairs 20) := by
  intro i
  constructor
  · rw [ellipse_position_zero]
    unfold targetPos
    norm_num [a, ring_radius]
  · rw [ellipse_position_half]
    unfold targetPos
    rw [targetAngle_add_num_pairs i (by norm_num) (by norm_num),
      Real.cos_add_pi, Real.sin_add_pi]
    norm_num [a, ring_radius]

/-- Claim C3: the orbit motion model is exactly periodic in time with period
1/speed, and its output is a pure function of its arguments alone. -/
theorem orbit_periodic_and_stateless :
    (∀ t s o theta av bv : ℝ, 0 < s →
        shuttlePos (t + 1 / s) s o theta av bv = shuttlePos t s o theta av bv) ∧
    (∀ t s o theta av bv t' s' o' theta' av' bv' : ℝ,
        t = t' → s = s' → o = o' → theta = theta' → av = av' → bv = bv' →
        shuttlePos t s o theta av bv = shuttlePos t' s' o' theta' av' bv') := by
  constructor
  · intro t s o theta av bv hs
    have hs' : s ≠ 0 := ne_of_gt hs
    unfold shuttlePos
    have harg : (t + 1 / s) * s + o = (t * s + o) + ((1 : ℤ) : ℝ) := by
      push_cast
      field_simp
      ring
    rw [harg, Int.fract_add_int]
  · intro t s o theta av bv t' s' o' theta' av' bv' h1 h2 h3 h4 h5 h6
    rw [h1, h2, h3, h4, h5, h6]

/-- Witness for C3 at a concrete input: speed 1 is positive, and one full
period at speed 1 returns the shuttle to its position at time 0. -/
theorem orbit_periodic_witness :
    (0 : ℝ) < 1 ∧ shuttlePos (0 + 1 / 1) 1 0 0 1 1 = shuttlePos 0 1 0 0 1 1 :=
  ⟨by norm_num, orbit_periodic_and_stateless.1 0 1 0 0 1 1 (by norm_num)⟩

/-- Claim C2: the proximity detector reports overlap iff some shuttle point
is strictly within the threshold distance of the pointer; a point coincident
with the pointer (distance 0) gives overlap for any positive threshold; and
if every point is at distance exactly the threshold, there is no overlap. -/
theorem proximity_detector_strict :
    (∀ (pts : List (ℝ × ℝ)) (g : ℝ × ℝ) (th : ℝ),
        overlap pts g th ↔ ∃ p ∈ pts, distance p g < th) ∧
    (∀ (pts : List (ℝ × ℝ)) (g : ℝ × ℝ) (th : ℝ), g ∈ pts → 0 < th →
        overlap pts g th) ∧
    (∀ (pts : List (ℝ × ℝ)) (g : ℝ × ℝ) (th : ℝ),
        (∀ p ∈ pts, distance p g = th) → ¬ overlap pts g th) := by
  refine ⟨fun pts g th => Iff.rfl, ?_, ?_⟩
  · intro pts g th hg hth
    have hdist : distance g g = 0 := by
      simp [distance]
    exact ⟨g, hg, by rw [hdist]; exact hth⟩
  · rintro pts g th hall ⟨p, hp, hlt⟩
    rw [hall p hp] at hlt
    exact lt_irrefl th hlt

/-- Witness for C2 at a concrete input: the pointer at the origin coincides
with the single shuttle point at the origin and the threshold 1 is positive,
so the detector reports overlap. -/
theorem proximity_detector_witness :
    ((0 : ℝ), (0 : ℝ)) ∈ [((0 : ℝ), (0 : ℝ))] ∧ (0 : ℝ) < 1 ∧
      overlap [((0 : ℝ), (0 : ℝ))] ((0 : ℝ), (0 : ℝ)) 1 :=
  ⟨by simp, by norm_num,
    proximity_detector_strict.2.1 _ _ _ (by simp) (by norm_num)⟩

/-! The cue trigger: basic unfolding lemmas and the uniform 0.22-spaced
firing schedule under continuously true overlap. -/

lemma fireTimes_nil (beepOk : Bool) (last : ℚ) :
    fireTimes beepOk [] last = [] := rfl

lemma fireTimes_cons (beepOk : Bool) (f : ℚ × Bool) (rest : List (ℚ × Bool))
    (last : ℚ) :
    fireTimes beepOk (f :: rest) last =
      if cueFire beepOk f.2 f.1 last then f.1 :: fireTimes beepOk rest f.1
      else fireTimes beepOk rest last := rfl

lemma uniform_schedule (k : ℕ) :
    firesAt k = true ∧ lastAfter (k + 1) = (k : ℚ) * 0.22 := by
  induction k with
  | zero =>
    have hfire : cueFire true true (((0 : ℕ) : ℚ) * 0.22) (lastAfter 0) = true := by
      unfold cueFire lastAfter last_beep_time_init
      norm_num
    refine ⟨hfire, ?_⟩
    show (cueStep true true (((0 : ℕ) : ℚ) * 0.22) (lastAfter 0)).2
      = ((0 : ℕ) : ℚ) * 0.22
    unfold cueStep
    rw [if_pos hfire]
  | succ k ih =>
    have hfire : firesAt (k + 1) = true := by
      unfold firesAt
      rw [ih.2]
      unfold cueFire
      simp only [Bool.true_and, Bool.and_eq_true, decide_eq_true_eq]
      push_cast
      ring_nf
      norm_num
    refine ⟨hfire, ?_⟩
    have hfire' : cueFire true true (((k + 1 : ℕ) : ℚ) * 0.22)
        (lastAfter (k + 1)) = true := hfire
    show (cueStep true true (((k + 1 : ℕ) : ℚ) * 0.22) (lastAfter (k + 1))).2
      = ((k + 1 : ℕ) : ℚ) * 0.22
    unfold cueStep
    rw [if_pos hfire']

lemma mem_fireTimes_ge (beepOk : Bool) :
    ∀ (frames : List (ℚ × Bool)) (last x : ℚ),
      x ∈ fireTimes beepOk frames last → last + 0.22 ≤ x := by
  intro frames
  induction frames with
  | nil =>
    intro last x hx
    rw [fireTimes_nil] at hx
    exact absurd hx (List.not_mem_nil x)
  | cons f rest ih =>
    intro last x hx
    rw [fireTimes_cons] at hx
    by_cases hf : cueFire beepOk f.2 f.1 last = true
    · rw [if_pos hf] at hx
      have hge : (0.22 : ℚ) ≤ f.1 - last := by
        unfold cueFire at hf
        simp only [Bool.and_eq_true, decide_eq_true_eq] at hf
        exact hf.2
      rcases List.mem_cons.mp hx with h | h
      · rw [h]
        linarith
      · have hrest := ih f.1 x h
        linarith
    · rw [if_neg hf] at hx
      exact ih last x hx

/-- Claim C1: with audio available, a cue fires on a frame iff overlap holds
and (the last-cue time is the initial sentinel, or at least 0.22 s have
passed since the last cue); on firing the last-cue time becomes now; and
under continuously true overlap with frames at clock times 0, 0.22, 0.44,
and so on, a cue fires on every one of those frames — in particular the very
first frame at t = 0 fires immediately. -/
theorem cue_trigger_rule :
    (∀ (ov : Bool) (now last : ℚ), 0 ≤ now →
        (cueFire true ov now last = true ↔
          ov = true ∧ (last = last_beep_time_init ∨ 0.22 ≤ now - last))) ∧
    (∀ (ov : Bool) (now last : ℚ), cueFire true ov now last = true →
        (cueStep true ov now last).2 = now) ∧
    (∀ k : ℕ, firesAt k = true) := by
  refine ⟨?_, ?_, fun k => (uniform_schedule k).1⟩
  · intro ov now last hnow
    unfold cueFire
    simp only [Bool.true_and, Bool.and_eq_true, decide_eq_true_eq]
    constructor
    · rintro ⟨hov, hle⟩
      exact ⟨hov, Or.inr hle⟩
    · rintro ⟨hov, h | hle⟩
      · refine ⟨hov, ?_⟩
        rw [h]
        unfold last_beep_time_init
        linarith
      · exact ⟨hov, hle⟩
  · intro ov now last hf
    unfold cueStep
    rw [if_pos hf]

/-- Witness for C1 at a concrete input: at the first frame (now = 0, overlap
true, last-cue time still the sentinel -1), the rule is exercised and firing
sets the last-cue time to 0. -/
theorem cue_trigger_rule_witness :
    (cueFire true true 0 (-1) = true ↔
      (true = true ∧ ((-1 : ℚ) = last_beep_time_init ∨ (0.22 : ℚ) ≤ 0 - (-1)))) ∧
    (cueStep true true 0 (-1)).2 = 0 :=
  ⟨cue_trigger_rule.1 true 0 (-1) (by norm_num),
   cue_trigger_rule.2.1 true 0 (-1) (by unfold cueFire; norm_num)⟩

/-- Claim C8: over any execution of the frame loop, the recorded cue-firing
times are pairwise at least 0.22 s apart, and a frame whose overlap boolean
is false fires no cue and leaves the cue state unchanged (so no trailing
cue occurs after overlap goes false). -/
theorem cue_spacing_and_no_fire_without_overlap :
    (∀ (beepOk : Bool) (frames : List (ℚ × Bool)) (last : ℚ),
        (fireTimes beepOk frames last).Pairwise (fun x y => x + 0.22 ≤ y)) ∧
    (∀ (beepOk : Bool) (now last : ℚ) (frames : List (ℚ × Bool)),
        fireTimes beepOk ((now, false) :: frames) last
          = fireTimes beepOk frames last) := by
  constructor
  · intro beepOk frames
    induction frames with
    | nil =>
      intro last
      rw [fireTimes_nil]
      exact List.Pairwise.nil
    | cons f rest ih =>
      intro last
      rw [fireTimes_cons]
      by_cases hf : cueFire beepOk f.2 f.1 last = true
      · rw [if_pos hf]
        refine List.pairwise_cons.mpr ⟨?_, ih f.1⟩
        intro x hx
        exact mem_fireTimes_ge beepOk rest f.1 x hx
      · rw [if_neg hf]
        exact ih last
  · intro beepOk now last frames
    rw [fireTimes_cons]
    simp [cueFire]

/-! Setup-time evaluation: the white pair indices, base phases and phase
offsets of concrete configurations. -/

lemma white_pair_indices_twenty :
    white_pair_indices 20 = [1, 2, 3, 4, 5, 6, 7, 8, 9] := by decide

lemma white_pair_indices_twentyone :
    white_pair_indices 21 = [1, 2, 3, 4, 5, 6, 7, 8, 9] := by decide

lemma white_pair_indices_two : white_pair_indices 2 = [] := by decide

lemma nwd_twenty : nwd 20 = 9 := by decide

lemma nwd_two : nwd 2 = 1 := by decide

lemma base_phases_twenty :
    base_phases 20 = [1/2, 1/2, 1/2, 1/2, 1/2, 0, 0, 0, 0] := by
  unfold base_phases
  rw [white_pair_indices_twenty]
  simp only [List.map_cons, List.map_nil]
  rw [basePhase_of_nonneg (cos_targetAngle_pos (by norm_num : 4 * 1 < 20)).le,
    basePhase_of_nonneg (cos_targetAngle_pos (by norm_num : 4 * 2 < 20)).le,
    basePhase_of_nonneg (cos_targetAngle_pos (by norm_num : 4 * 3 < 20)).le,
    basePhase_of_nonneg (cos_targetAngle_pos (by norm_num : 4 * 4 < 20)).le,
    basePhase_of_nonneg
      (cos_targetAngle_quarter (by norm_num : 0 < 5) (by norm_num : 4 * 5 = 20)).ge,
    basePhase_of_neg
      (cos_targetAngle_neg (by norm_num : 20 < 4 * 6) (by norm_num : 4 * 6 < 3 * 20)),
    basePhase_of_neg
      (cos_targetAngle_neg (by norm_num : 20 < 4 * 7) (by norm_num : 4 * 7 < 3 * 20)),
    basePhase_of_neg
      (cos_targetAngle_neg (by norm_num : 20 < 4 * 8) (by norm_num : 4 * 8 < 3 * 20)),
    basePhase_of_neg
      (cos_targetAngle_neg (by norm_num : 20 < 4 * 9) (by norm_num : 4 * 9 < 3 * 20))]

lemma phase_offsets_twenty_zero :
    phase_offsets 20 0 = some [1/2, 1/2, 1/2, 1/2, 1/2, 0, 0, 0, 0] := by
  unfold phase_offsets gap
  rw [base_phases_twenty, nwd_twenty]
  norm_num [offsetsAux, Int.fract]

lemma phase_offsets_twenty_one :
    phase_offsets 20 1
      = some [1/2, 11/18, 13/18, 5/6, 17/18, 5/9, 2/3, 7/9, 8/9] := by
  unfold phase_offsets gap
  rw [base_phases_twenty, nwd_twenty]
  norm_num [offsetsAux, Int.fract]

lemma offsetsAux_isSome (g : ℚ) :
    ∀ (m j : ℕ) (bs : List ℚ), j + m ≤ bs.length →
      (offsetsAux bs g j m).isSome = true := by
  intro m
  induction m with
  | zero =>
    intro j bs _
    rfl
  | succ m ih =>
    intro j bs h
    have hj : j < bs.length := by omega
    obtain ⟨bj, hbj⟩ : ∃ x, bs.get? j = some x := by
      rw [List.get?_eq_get hj]
      exact ⟨_, rfl⟩
    show (offsetsAux bs g j (m + 1)).isSome = true
    unfold offsetsAux
    rw [hbj]
    obtain ⟨l, hl⟩ := Option.isSome_iff_exists.mp (ih (j + 1) bs (by omega))
    rw [hl]
    rfl

lemma phase_offsets_isSome (n : ℕ) (s : ℚ)
    (h : 1 ≤ (white_pair_indices n).length) :
    (phase_offsets n s).isSome = true := by
  unfold phase_offsets
  apply offsetsAux_isSome
  unfold nwd base_phases
  simp only [List.length_map]
  omega

/-- Claim C7 (code bug): the claim says the phase-offset computation is total
for every even target count down to 2, the max(1, shuttle count) guard making
it safe even with zero shuttle points; but at num_targets = 2 the offset list
comprehension iterates j over range(max(1, 0)) = range(1) and evaluates
base_phases[0] on an empty list, a runtime fault (IndexError), modelled here
as the computation returning none. -/
theorem phase_offsets_fault_at_two_targets : phase_offsets 2 (1/2) = none := by
  unfold phase_offsets base_phases
  rw [white_pair_indices_two, nwd_two]
  simp [offsetsAux]

/-- Counterexample to claim C6: a configuration with an odd target count (21)
and a phase spread outside [0,1] (1.5) is not rejected — the setup-time
phase-offset computation completes without any fault. -/
theorem config_errors_not_rejected_counterexample :
    (phase_offsets 21 (3/2)).isSome = true := by
  apply phase_offsets_isSome
  rw [white_pair_indices_twentyone]
  norm_num

/-- Amended claim C6: the script performs no configuration validation at all;
an odd target count, a phase spread outside [0,1], and a non-positive ring
radius are all silently accepted: setup completes and the offending values
are used as-is (for a negative radius, the geometry is simply computed with
negative axes). -/
theorem config_errors_silently_accepted :
    (phase_offsets 21 (3/2)).isSome = true ∧
    (phase_offsets 20 (3/2)).isSome = true ∧
    (phase_offsets 20 (-1/2)).isSome = true ∧
    ellipse_position 0 0 (-250) ((-250) * (7/20)) = (-250, 0) := by
  refine ⟨?_, ?_, ?_, ?_⟩
  · apply phase_offsets_isSome
    rw [white_pair_indices_twentyone]
    norm_num
  · apply phase_offsets_isSome
    rw [white_pair_indices_twenty]
    norm_num
  · apply phase_offsets_isSome
    rw [white_pair_indices_twenty]
    norm_num
  · rw [ellipse_position_zero]
    norm_num

/-! Claim C4: phase spread 1. -/

lemma sorted_offsets_twenty_one :
    List.insertionSort (· ≤ ·)
      [(1:ℚ)/2, 11/18, 13/18, 5/6, 17/18, 5/9, 2/3, 7/9, 8/9]
      = [1/2, 5/9, 11/18, 2/3, 13/18, 7/9, 5/6, 8/9, 17/18] := by
  norm_num [List.insertionSort, List.orderedInsert]

/-- Counterexample to claim C4: in the script's own configuration (20
targets, 9 shuttle points, phase_spread = 1) the computed offsets, sorted,
are not spaced by 1/M = 1/9 modulo 1: the first two sorted offsets are 1/2
and 5/9, only 1/18 apart, because the per-point base phases (a mix of 0 and
0.5) shift the otherwise uniform grid. -/
theorem spread_one_offsets_not_evenly_spaced :
    nwd 20 = 9 ∧ ¬ evenlySpacedMod1 ((phase_offsets 20 1).getD []) (1/9) := by
  refine ⟨nwd_twenty, ?_⟩
  rw [phase_offsets_twenty_one]
  simp only [Option.getD_some]
  unfold evenlySpacedMod1
  rw [sorted_offsets_twenty_one]
  rintro ⟨hchain, -⟩
  rw [List.chain'_cons] at hchain
  have h1 := hchain.1
  norm_num at h1

lemma gap_one (n : ℕ) : gap n 1 = 1 / (nwd n : ℚ) := by
  unfold gap
  ring

lemma evenlySpaced_uniform (M : ℕ) (hM : 1 ≤ M) :
    evenlySpacedMod1 ((List.range M).map (fun j : ℕ => (j : ℚ) / (M : ℚ)))
      (1 / (M : ℚ)) := by
  obtain ⟨m, rfl⟩ : ∃ m, M = m + 1 := ⟨M - 1, by omega⟩
  have hM0 : (0 : ℚ) < ((m + 1 : ℕ) : ℚ) := by positivity
  have hsorted : List.Sorted (· ≤ ·)
      ((List.range (m + 1)).map (fun j : ℕ => (j : ℚ) / ((m + 1 : ℕ) : ℚ))) := by
    refine List.Pairwise.map _ (fun x y (hxy : x < y) => ?_)
      (List.pairwise_lt_range (m + 1))
    have hc : (x : ℚ) ≤ (y : ℚ) := by exact_mod_cast hxy.le
    exact (div_le_div_iff_of_pos_right hM0).mpr hc
  have hchain : List.Chain' (fun x y => y - x = 1 / ((m + 1 : ℕ) : ℚ))
      ((List.range (m + 1)).map (fun j : ℕ => (j : ℚ) / ((m + 1 : ℕ) : ℚ))) := by
    rw [List.chain'_map, List.chain'_range_succ]
    intro i _
    have hne : ((m + 1 : ℕ) : ℚ) ≠ 0 := ne_of_gt hM0
    push_cast
    field_simp
  have hhead : ((List.range (m + 1)).map
      (fun j : ℕ => (j : ℚ) / ((m + 1 : ℕ) : ℚ))).headD 0 = 0 := by
    rw [List.range_succ_eq_map]
    simp
  have hlast : ((List.range (m + 1)).map
      (fun j : ℕ => (j : ℚ) / ((m + 1 : ℕ) : ℚ))).getLastD 0
      = ((m : ℕ) : ℚ) / ((m + 1 : ℕ) : ℚ) := by
    rw [List.range_succ, List.map_append]
    simp [List.getLastD_concat]
  unfold evenlySpacedMod1
  rw [List.Sorted.insertionSort_eq hsorted, hhead, hlast]
  refine ⟨hchain, ?_⟩
  have hne : ((m + 1 : ℕ) : ℚ) ≠ 0 := ne_of_gt hM0
  push_cast
  push_cast at hne
  field_simp

/-- Amended claim C4: at phase_spread = 1 the accumulated spread increments
j * gap modulo 1 (j = 0 .. M-1, gap = 1/M), sorted, are spaced exactly 1/M
apart across one full cycle; the actual offsets add each point's own base
phase (0 or 0.5) on top of these increments, which in general destroys the
uniform 1/M spacing, as the counterexample shows. -/
theorem spread_one_increments_evenly_spaced :
    ∀ n : ℕ, evenlySpacedMod1
      ((List.range (nwd n)).map (fun j : ℕ => Int.fract ((j : ℚ) * gap n 1)))
      (gap n 1) := by
  intro n
  have hM : 1 ≤ nwd n := le_max_left 1 _
  have hM0 : (0 : ℚ) < ((nwd n : ℕ) : ℚ) := by
    have : 0 < nwd n := hM
    exact_mod_cast this
  rw [gap_one]
  have hmap : (List.range (nwd n)).map
      (fun j : ℕ => Int.fract ((j : ℚ) * (1 / (nwd n : ℚ))))
      = (List.range (nwd n)).map (fun j : ℕ => (j : ℚ) / (nwd n : ℚ)) := by
    apply List.map_congr_left
    intro j hj
    have hjM : j < nwd n := List.mem_range.mp hj
    rw [mul_one_div]
    refine Int.fract_eq_self.mpr ⟨by positivity, ?_⟩
    rw [div_lt_one hM0]
    exact_mod_cast hjM
  rw [hmap]
  exact evenlySpaced_uniform (nwd n) hM

/-! Claim C5: the end-to-end N = 20, spread = 0 left-start scenario. -/

lemma shuttle_left_start_neg (i : ℕ) (sR : ℝ)
    (hneg : Real.cos (targetAngle 20 i) < 0) :
    shuttlePos 0 sR ((0 : ℚ) : ℝ) (targetAngle 20 i) ((a : ℚ) : ℝ) ((b : ℚ) : ℝ)
      = specLeftEndpoint 20 i := by
  have hx : (targetPos 20 i).1 < 0 := by
    unfold targetPos
    exact mul_neg_of_pos_of_neg (by norm_num [ring_radius]) hneg
  unfold shuttlePos
  have h0 : (0 : ℝ) * sR + ((0 : ℚ) : ℝ) = 0 := by norm_num
  rw [h0, Int.fract_zero, ellipse_position_zero]
  unfold specLeftEndpoint
  rw [if_pos hx]
  unfold targetPos
  simp [a]

lemma shuttle_left_start_nonneg (i : ℕ) (sR : ℝ)
    (hnonneg : 0 ≤ Real.cos (targetAngle 20 i)) :
    shuttlePos 0 sR ((1/2 : ℚ) : ℝ) (targetAngle 20 i) ((a : ℚ) : ℝ) ((b : ℚ) : ℝ)
      = specLeftEndpoint 20 i := by
  have hx : ¬ (targetPos 20 i).1 < 0 := by
    unfold targetPos
    push_neg
    exact mul_nonneg (by norm_num [ring_radius]) hnonneg
  unfold shuttlePos
  have h0 : (0 : ℝ) * sR + ((1/2 : ℚ) : ℝ) = 1/2 := by norm_num
  rw [h0]
  have hfr : Int.fract ((1 : ℝ)/2) = 1/2 := Int.fract_eq_self.mpr (by norm_num)
  rw [hfr, ellipse_position_half]
  unfold specLeftEndpoint
  rw [if_neg hx]
  unfold targetPos
  rw [targetAngle_add_num_pairs i (by norm_num) (by norm_num),
    Real.cos_add_pi, Real.sin_add_pi]
  simp [a, Prod.ext_iff]

/-- Claim C5: with 20 targets the script has 10 pairs and 9 shuttle points,
and at phase_spread = 0 each shuttle point's evaluated position at time 0
coincides with its pair's left endpoint — the endpoint with negative
x-coordinate, or the mid-cycle (phase-0.5) endpoint when neither endpoint
has negative x.  Shuttle j (j = 0..8) belongs to pair j + 1 and uses the
j-th computed phase offset. -/
theorem twenty_targets_left_start :
    num_pairs 20 = 10 ∧ num_white_dots 20 = 9 ∧
    ∀ j : ℕ, j < 9 →
      shuttlePos 0 ((speed_uniform : ℚ) : ℝ)
          ((((phase_offsets 20 0).getD []).getD j 0 : ℚ) : ℝ)
          (targetAngle 20 (j + 1)) ((a : ℚ) : ℝ) ((b : ℚ) : ℝ)
        = specLeftEndpoint 20 (j + 1) := by
  refine ⟨by decide, by decide, ?_⟩
  intro j hj
  rw [phase_offsets_twenty_zero]
  interval_cases j
  · exact shuttle_left_start_nonneg 1 _
      (cos_targetAngle_pos (by norm_num : 4 * 1 < 20)).le
  · exact shuttle_left_start_nonneg 2 _
      (cos_targetAngle_pos (by norm_num : 4 * 2 < 20)).le
  · exact shuttle_left_start_nonneg 3 _
      (cos_targetAngle_pos (by norm_num : 4 * 3 < 20)).le
  · exact shuttle_left_start_nonneg 4 _
      (cos_targetAngle_pos (by norm_num : 4 * 4 < 20)).le
  · exact shuttle_left_start_nonneg 5 _
      (cos_targetAngle_quarter (by norm_num : 0 < 5) (by norm_num : 4 * 5 = 20)).ge
  · exact shuttle_left_start_neg 6 _
      (cos_targetAngle_neg (by norm_num : 20 < 4 * 6) (by norm_num : 4 * 6 < 3 * 20))
  · exact shuttle_left_start_neg 7 _
      (cos_targetAngle_neg (by norm_num : 20 < 4 * 7) (by norm_num : 4 * 7 < 3 * 20))
  · exact shuttle_left_start_neg 8 _
      (cos_targetAngle_neg (by norm_num : 20 < 4 * 8) (by norm_num : 4 * 8 < 3 * 20))
  · exact shuttle_left_start_neg 9 _
      (cos_targetAngle_neg (by norm_num : 20 < 4 * 9) (by norm_num : 4 * 9 < 3 * 20))

/-- Witness for C5 at a concrete input: shuttle 0 (pair 1) at time 0 sits at
its pair's left endpoint. -/
theorem twenty_targets_left_start_witness :
    (0 : ℕ) < 9 ∧
    shuttlePos 0 ((speed_uniform : ℚ) : ℝ)
        ((((phase_offsets 20 0).getD []).getD 0 0 : ℚ) : ℝ)
        (targetAngle 20 (0 + 1)) ((a : ℚ) : ℝ) ((b : ℚ) : ℝ)
      = specLeftEndpoint 20 (0 + 1) :=
  ⟨by norm_num, twenty_targets_left_start.2.2 0 (by norm_num)⟩

end Untitled
